import Mathlib

/-!
Verification model of the `imet-2020-fgvc7` repository
(`app/preprocess.py` and `app/models.py`), embedded shallowly:
Python integers become `Int`/`Nat`, numpy arrays become `List Nat`,
fallible operations return `Except Err`.
-/

/-- Failure modes of the modelled pipeline.  `IndexOutOfRange` models a
numpy `IndexError`, `ZeroDivision` a Python `ZeroDivisionError`,
`InvalidConfiguration` a `ValueError` raised by `torch.nn.Conv2d` on a bad
group count, `ShapeMismatch` a torch runtime shape error, `LengthMismatch`
the error the spec postulates for unequal-length evaluator inputs. -/
inductive Err where
  | IndexOutOfRange
  | ZeroDivision
  | InvalidConfiguration
  | ShapeMismatch
  | LengthMismatch
  | AttributeMissing
  deriving DecidableEq, Repr

/-- An annotation record (source type `Annotation` of `app/entities.py`,
a `{id, label_ids}` dict): an image id and its list of label ids. -/
structure Anno where
  id : String
  label_ids : List Int
  deriving DecidableEq, Repr

/-- Numpy element assignment `base[l] = 1` on a 1-d float array of length
`base.length`: a nonnegative index must be `< len`, a negative index `l`
addresses position `len + l` (numpy negative indexing); anything else
raises `IndexError`. -/
def npSet (base : List Nat) (l : Int) : Except Err (List Nat) :=
  if 0 ≤ l ∧ l < (base.length : Int) then .ok (base.set l.toNat 1)
  else if -(base.length : Int) ≤ l ∧ l < 0 then
    .ok (base.set ((base.length : Int) + l).toNat 1)
  else .error .IndexOutOfRange

/-- The loop `for l in ano["label_ids"]: base[l] = 1` of `to_multi_hot`. -/
def setLabels (base : List Nat) : List Int → Except Err (List Nat)
  | [] => .ok base
  | l :: ls => do
    let b ← npSet base l
    setLabels b ls

/-- One row of `to_multi_hot`: `base = np.zeros(size)` then the
assignment loop (`app/preprocess.py`, lines 137-139). -/
def to_multi_hot_row (ids : List Int) (size : Nat) : Except Err (List Nat) :=
  setLabels (List.replicate size 0) ids

/-- `to_multi_hot(annotations, size=3474)` (`app/preprocess.py`, lines
134-141): one multi-hot row per annotation record. -/
def to_multi_hot (annotations : List Anno) (size : Nat) :
    Except Err (List (List Nat)) :=
  annotations.mapM (fun a => to_multi_hot_row a.label_ids size)

/-- Modelled from the spec: the external `sklearn.metrics.fbeta_score`
with `beta=2` on binary vectors `g` (truth) and `p` (prediction):
`(1+β²)·TP / ((1+β²)·TP + β²·FN + FP)` with `β² = 4`, and `0` when the
denominator is `0` (sklearn's zero-division convention). -/
def fbeta2 (g p : List Nat) : ℚ :=
  let tp := ((g.zip p).filter (fun x => x.1 == 1 && x.2 == 1)).length
  let fp := ((g.zip p).filter (fun x => x.1 != 1 && x.2 == 1)).length
  let fn := ((g.zip p).filter (fun x => x.1 == 1 && x.2 != 1)).length
  if 5 * tp + 4 * fn + fp = 0 then 0
  else (5 * tp : ℚ) / ((5 * tp + 4 * fn + fp : Nat) : ℚ)

/-- Numpy `np.array(scores).mean()`: the arithmetic mean, and `NaN`
(modelled as `none`) on an empty array. -/
def npMean (scores : List ℚ) : Option ℚ :=
  if scores.length = 0 then none
  else some (scores.sum / (scores.length : ℚ))

/-- `evaluate(pred, gt)` (`app/preprocess.py`, lines 144-149): encodes
both sequences at the default size 3474, zips the row lists (Python
`zip` truncates to the shorter list), scores each pair with
`fbeta_score(g, p, beta=2)` and returns the numpy mean. -/
def evaluate (pred gt : List Anno) : Except Err (Option ℚ) := do
  let hp ← to_multi_hot pred 3474
  let hg ← to_multi_hot gt 3474
  let scores := (hp.zip hg).map (fun x => fbeta2 x.2 x.1)
  return npMean scores

/-- `kfold(n_splits, annotations)` (`app/preprocess.py`, lines 122-131).
The index pairs produced by the external
`MultilabelStratifiedKFold.split` call are passed in as `splits`
(the library is not part of the repository); for each `(train, test)`
pair the source builds BOTH partitions from the `test` indices:
`([annotations[i] for i in test], [annotations[i] for i in test])`. -/
def kfold (splits : List (List Nat × List Nat)) (annotations : List Anno) :
    Except Err (List (List Anno × List Anno)) := do
  let _multi_hot ← to_multi_hot annotations 3474
  return splits.map (fun s =>
    (s.2.map (fun i => annotations.getD i ⟨"", []⟩),
     s.2.map (fun i => annotations.getD i ⟨"", []⟩)))

/-!
## `app/models.py`

Tensors are tracked at the shape level (batch dimension elided, as the
spec notes the core never inspects it) and at the level of symbolic
forward expressions recording the exact composition of sub-modules.
-/

/-- Shape of a tensor with the batch dimension elided:
channels, height, width. -/
structure Shape where
  c : Nat
  h : Nat
  w : Nat
  deriving DecidableEq, Repr

/-- `ConvBR2d` (`app/models.py`, lines 97-130): the configuration of a
`Conv2d` + `BatchNorm2d` + optional `ReLU` unit. -/
structure ConvBR2d where
  in_channels : Nat
  out_channels : Nat
  kernel_size : Nat
  padding : Nat
  dilation : Nat
  stride : Nat
  groups : Nat
  is_activation : Bool
  deriving DecidableEq, Repr

/-- `ConvBR2d.__init__`: `torch.nn.Conv2d` rejects (with a `ValueError`,
modelled as `InvalidConfiguration`) a non-positive group count and
channel counts not divisible by `groups`; otherwise the unit is built. -/
def ConvBR2d.init (in_channels out_channels kernel_size padding dilation
    stride groups : Nat) (is_activation : Bool) : Except Err ConvBR2d :=
  if groups = 0 then .error .InvalidConfiguration
  else if in_channels % groups ≠ 0 then .error .InvalidConfiguration
  else if out_channels % groups ≠ 0 then .error .InvalidConfiguration
  else .ok ⟨in_channels, out_channels, kernel_size, padding, dilation,
            stride, groups, is_activation⟩

/-- Shape semantics of `ConvBR2d.forward`: the input channel count must
match the configured one, the (dilated) kernel must fit into the padded
input, and the output spatial size is the usual floor formula; batch
norm and `ReLU` preserve shape. -/
def ConvBR2d.outShape (m : ConvBR2d) (s : Shape) : Except Err Shape :=
  if s.c ≠ m.in_channels then .error .ShapeMismatch
  else
    let eff := m.dilation * (m.kernel_size - 1) + 1
    if s.h + 2 * m.padding < eff ∨ s.w + 2 * m.padding < eff then
      .error .ShapeMismatch
    else .ok ⟨m.out_channels, (s.h + 2 * m.padding - eff) / m.stride + 1,
              (s.w + 2 * m.padding - eff) / m.stride + 1⟩

/-- `CSEModule` (`app/models.py`, lines 19-32): channel attention.
`mid_channels` is the width of the bottlenecked projection,
`in_channels // reduction` in the source. -/
structure CSEModule where
  in_channels : Nat
  mid_channels : Nat
  deriving DecidableEq, Repr

/-- `CSEModule.__init__`: the only fallible step is the Python floor
division `in_channels // reduction`, a `ZeroDivisionError` when
`reduction == 0`; the source performs no divisibility check. -/
def CSEModule.init (in_channels reduction : Nat) : Except Err CSEModule :=
  if reduction = 0 then .error .ZeroDivision
  else .ok ⟨in_channels, in_channels / reduction⟩

/-- One dimension of torch/numpy broadcasting: equal extents, or either
side of extent 1 stretched to the other. -/
def bcastDim (a b : Nat) : Except Err Nat :=
  if a = b then .ok a
  else if a = 1 then .ok b
  else if b = 1 then .ok a
  else .error .ShapeMismatch

/-- Torch broadcasting of two shapes, dimension by dimension (the
semantics of `x + s` and `x * se(x)` on same-rank tensors). -/
def bcast (x y : Shape) : Except Err Shape := do
  let c ← bcastDim x.c y.c
  let h ← bcastDim x.h y.h
  let w ← bcastDim x.w y.w
  return ⟨c, h, w⟩

/-- Shape semantics of `CSEModule.forward`: the gate path pools to
`(C, 1, 1)`, projects down and back up (requiring the configured channel
count), and the sigmoid output is broadcast-multiplied into the input. -/
def CSEModule.outShape (m : CSEModule) (s : Shape) : Except Err Shape :=
  if s.c ≠ m.in_channels then .error .ShapeMismatch
  else bcast s ⟨m.in_channels, 1, 1⟩

/-- The two pooling kinds accepted by `SENextBottleneck`. -/
inductive PoolKind where
  | max
  | avg
  deriving DecidableEq, Repr

/-- Shape of a `MaxPool2d(k, k)` / `AvgPool2d(k, k)` / `F.avg_pool2d`
output: torch raises when the window does not fit. -/
def poolOutShape (k : Nat) (s : Shape) : Except Err Shape :=
  if s.h < k ∨ s.w < k then .error .ShapeMismatch
  else .ok ⟨s.c, (s.h - k) / k + 1, (s.w - k) / k + 1⟩

/-- Symbolic tensor expressions: the forward pass of a module applied to
a placeholder `input`, recording the exact order of sub-module
applications. -/
inductive TExpr where
  | input : TExpr
  | convBR (m : ConvBR2d) (e : TExpr) : TExpr
  | poolApp (kind : PoolKind) (k : Nat) (e : TExpr) : TExpr
  | avgPool2d (k : Nat) (e : TExpr) : TExpr
  | gap (e : TExpr) : TExpr
  | conv1x1 (cin cout : Nat) (e : TExpr) : TExpr
  | relu (e : TExpr) : TExpr
  | sigmoid (e : TExpr) : TExpr
  | mul (a b : TExpr) : TExpr
  | add (a b : TExpr) : TExpr
  | missing : TExpr
  deriving DecidableEq, Repr

/-- Symbolic `CSEModule.forward`: `x * se(x)` where `se` is the
`Sequential` of global average pool, `1x1` conv down, `ReLU`,
`1x1` conv up, sigmoid (`app/models.py`, lines 22-32). -/
def CSEModule.forwardExpr (m : CSEModule) (x : TExpr) : TExpr :=
  .mul x (.sigmoid (.conv1x1 m.mid_channels m.in_channels
    (.relu (.conv1x1 m.in_channels m.mid_channels (.gap x)))))

/-- `SENextBottleneck` (`app/models.py`, lines 44-94): the sub-modules
attached by `__init__`.  `shortcut` and `pool` exist only under the
configurations that attach them in the source. -/
structure SENextBottleneck where
  conv1 : ConvBR2d
  conv2 : ConvBR2d
  conv3 : ConvBR2d
  se : CSEModule
  stride : Nat
  is_shortcut : Bool
  shortcut : Option ConvBR2d
  pool : Option (PoolKind × Nat)
  deriving DecidableEq, Repr

/-- `SENextBottleneck.__init__`: computes
`mid_channels = groups * (out_channels // 2 // groups)` (a
`ZeroDivisionError` when `groups == 0`), builds the three `ConvBR2d`
units and the `CSEModule`, and attaches `shortcut` / `pool` only when
`is_shortcut` / `stride > 1`. -/
def SENextBottleneck.init (in_channels out_channels stride groups
    reduction : Nat) (pool : PoolKind) (is_shortcut : Bool) :
    Except Err SENextBottleneck := do
  if groups = 0 then throw .ZeroDivision
  let mid_channels := groups * (out_channels / 2 / groups)
  let conv1 ← ConvBR2d.init in_channels mid_channels 1 0 1 1 1 true
  let conv2 ← ConvBR2d.init mid_channels mid_channels 3 1 1 1 groups true
  let conv3 ← ConvBR2d.init mid_channels out_channels 1 0 1 1 1 false
  let se ← CSEModule.init out_channels reduction
  let sc ← if is_shortcut then do
      let m ← ConvBR2d.init in_channels out_channels 1 0 1 1 1 false
      pure (some m)
    else pure none
  let p := if stride > 1 then some (pool, stride) else none
  return ⟨conv1, conv2, conv3, se, stride, is_shortcut, sc, p⟩

/-- Shape semantics of `SENextBottleneck.forward` (`app/models.py`,
lines 76-94): `conv1`, `conv2`, pool when `stride > 1`, `conv3`, `se`;
the shortcut branch is average-pooled (when `stride > 1`) and projected
when `is_shortcut`, else it is the raw input; `x + s` broadcasts, and
the final `ReLU` preserves shape. -/
def SENextBottleneck.forwardShape (b : SENextBottleneck) (x : Shape) :
    Except Err Shape := do
  let s ← b.conv1.outShape x
  let s ← b.conv2.outShape s
  let s ← if b.stride > 1 then
      match b.pool with
      | some p => poolOutShape p.2 s
      | none => throw .AttributeMissing
    else pure s
  let s ← b.conv3.outShape s
  let s ← b.se.outShape s
  let xs ← if b.is_shortcut then do
      let xp ← if b.stride > 1 then poolOutShape b.stride x else pure x
      match b.shortcut with
      | some m => m.outShape xp
      | none => throw .AttributeMissing
    else pure x
  bcast xs s

/-- Symbolic `SENextBottleneck.forward`: the exact statement order of
the source's forward method. -/
def SENextBottleneck.forwardExpr (b : SENextBottleneck) : TExpr :=
  let s := TExpr.convBR b.conv1 TExpr.input
  let s := TExpr.convBR b.conv2 s
  let s := if b.stride > 1 then
      match b.pool with
      | some p => TExpr.poolApp p.1 p.2 s
      | none => TExpr.missing
    else s
  let s := TExpr.convBR b.conv3 s
  let s := b.se.forwardExpr s
  let x := if b.is_shortcut then
      let x0 := if b.stride > 1 then TExpr.avgPool2d b.stride TExpr.input
        else TExpr.input
      match b.shortcut with
      | some m => TExpr.convBR m x0
      | none => TExpr.missing
    else TExpr.input
  TExpr.relu (TExpr.add x s)

/-- `SEResNeXt` (`app/models.py`, lines 152-175): the initial
convolution and the stack of bottleneck blocks. -/
structure SEResNeXt where
  in_conv : ConvBR2d
  layer : List SENextBottleneck
  deriving DecidableEq, Repr

/-- `diff = abs(out_channels - width)` of `SEResNeXt.__init__`. -/
def SEResNeXt.diff (width out_channels : Nat) : Nat :=
  ((out_channels : Int) - (width : Int)).natAbs

/-- The `in_channels` of block `i`: `width + diff*i//depth`. -/
def SEResNeXt.block_in (width out_channels depth i : Nat) : Nat :=
  width + SEResNeXt.diff width out_channels * i / depth

/-- The `out_channels` of block `i`: `width + diff*(i+1)//depth`. -/
def SEResNeXt.block_out (width out_channels depth i : Nat) : Nat :=
  width + SEResNeXt.diff width out_channels * (i + 1) / depth

/-- `SEResNeXt.__init__`: the initial `ConvBR2d` and, for each
`i < depth`, a `SENextBottleneck` with the interpolated channel widths,
`groups = width // depth`, and the constructor defaults
`stride=1, reduction=16, pool="max", is_shortcut=False`.  With
`depth = 0` the comprehension body (and its `width // depth`) is never
evaluated and the stack is empty. -/
def SEResNeXt.init (in_channels out_channels depth width : Nat) :
    Except Err SEResNeXt := do
  let in_conv ← ConvBR2d.init in_channels width 1 0 1 1 1 false
  let layer ← (List.range depth).mapM (fun i =>
    SENextBottleneck.init (SEResNeXt.block_in width out_channels depth i)
      (SEResNeXt.block_out width out_channels depth i)
      1 (width / depth) 16 .max false)
  return ⟨in_conv, layer⟩

/-!
## Helper definitions and lemmas for the multi-hot encoder
-/

/-- The position a (possibly negative) numpy index `l` addresses in an
array of length `size`. -/
def normIdx (size : Nat) (l : Int) : Nat :=
  (if 0 ≤ l then l else (size : Int) + l).toNat

/-- The spec's characterization of a multi-hot row: position `j` holds
`1` iff some id addresses it (for nonnegative valid ids: iff `j` is an
id), `0` otherwise. -/
def indicatorRow (ids : List Int) (size : Nat) : List Nat :=
  (List.range size).map (fun j => if j ∈ ids.map (normIdx size) then 1 else 0)

/-- Pure description of the assignment loop of `to_multi_hot`, assuming
every index hits the array. -/
def setAll : List Nat → List Int → List Nat
  | base, [] => base
  | base, l :: ls => setAll (base.set (normIdx base.length l) 1) ls

/-- The spec's description of the bottleneck forward pass, spelled from
the claim's words: `relu(branch + attend(expand(pool_if_stride_gt_1(
transform(compress(x))))))`, the pooling step sitting between
`transform` (`conv2`) and `expand` (`conv3`) exactly when `stride > 1`,
with `branch` the shortcut branch. -/
def specBottleneckExpr (b : SENextBottleneck) (branch : TExpr) : TExpr :=
  TExpr.relu (TExpr.add branch
    (b.se.forwardExpr (TExpr.convBR b.conv3
      (if b.stride > 1 then
        (match b.pool with
          | some p => TExpr.poolApp p.1 p.2
              (TExpr.convBR b.conv2 (TExpr.convBR b.conv1 TExpr.input))
          | none => TExpr.missing)
        else TExpr.convBR b.conv2 (TExpr.convBR b.conv1 TExpr.input)))))

theorem exceptBind_ok (v : α) (f : α → Except Err β) :
    (Except.ok v >>= f) = f v := rfl

theorem exceptBind_err (e : Err) (f : α → Except Err β) :
    ((Except.error e : Except Err α) >>= f) = .error e := rfl

theorem getD_set_eq_ite (l : List Nat) (i j a d : Nat) :
    (l.set i a).getD j d = if i = j ∧ j < l.length then a else l.getD j d := by
  simp only [List.getD_eq_getElem?_getD, List.getElem?_set]
  by_cases h : i = j
  · subst h
    by_cases h2 : i < l.length
    · simp [h2]
    · simp [h2, List.getElem?_eq_none (Nat.le_of_not_lt h2)]
  · simp [h]

theorem getElem_eq_getD {l : List Nat} {j : Nat} (h : j < l.length) :
    l[j] = l.getD j 0 := by
  simp [List.getD_eq_getElem?_getD, List.getElem?_eq_getElem h]

theorem npSet_valid (base : List Nat) (l : Int)
    (h1 : -(base.length : Int) ≤ l) (h2 : l < (base.length : Int)) :
    npSet base l = .ok (base.set (normIdx base.length l) 1) := by
  unfold npSet normIdx
  by_cases h0 : 0 ≤ l
  · rw [if_pos ⟨h0, h2⟩, if_pos h0]
  · rw [if_neg (fun hc => h0 hc.1), if_pos ⟨h1, by omega⟩, if_neg h0]

theorem npSet_invalid (base : List Nat) (l : Int)
    (h : l < -(base.length : Int) ∨ (base.length : Int) ≤ l) :
    npSet base l = .error .IndexOutOfRange := by
  unfold npSet
  rw [if_neg (by omega), if_neg (by omega)]

theorem setAll_length (ids : List Int) (base : List Nat) :
    (setAll base ids).length = base.length := by
  induction ids generalizing base with
  | nil => rfl
  | cons l ls ih => rw [setAll, ih, List.length_set]

theorem setAll_getD (ids : List Int) (base : List Nat) (j : Nat)
    (hv : ∀ l ∈ ids, normIdx base.length l < base.length) :
    (setAll base ids).getD j 0 =
      if j ∈ ids.map (normIdx base.length) then 1 else base.getD j 0 := by
  induction ids generalizing base with
  | nil => simp [setAll]
  | cons l ls ih =>
    rw [setAll]
    have hlen : (base.set (normIdx base.length l) 1).length = base.length :=
      List.length_set ..
    rw [ih (base.set (normIdx base.length l) 1)
      (fun x hx => by rw [hlen]; exact hv x (List.mem_cons_of_mem l hx))]
    rw [hlen]
    by_cases hmem : j ∈ ls.map (normIdx base.length)
    · simp [hmem]
    · by_cases hj : j = normIdx base.length l
      · subst hj
        rw [if_neg hmem, getD_set_eq_ite,
          if_pos ⟨rfl, hv l (List.mem_cons_self l ls)⟩, if_pos]
        simp
      · have hnc : j ∉ List.map (normIdx base.length) (l :: ls) := by
          simp only [List.map_cons, List.mem_cons]
          rintro (hc | hc)
          · exact hj hc
          · exact hmem hc
        rw [if_neg hmem, getD_set_eq_ite, if_neg (fun hc => hj hc.1.symm),
          if_neg hnc]

theorem setLabels_eq_setAll (ids : List Int) (base : List Nat)
    (h : ∀ l ∈ ids, -(base.length : Int) ≤ l ∧ l < (base.length : Int)) :
    setLabels base ids = .ok (setAll base ids) := by
  induction ids generalizing base with
  | nil => rfl
  | cons l ls ih =>
    have hl := h l (List.mem_cons_self l ls)
    rw [setLabels, setAll, npSet_valid base l hl.1 hl.2, exceptBind_ok]
    exact ih _ (fun x hx => by
      rw [List.length_set]; exact h x (List.mem_cons_of_mem l hx))

theorem setLabels_err (ids : List Int) (base : List Nat)
    (h : ∃ l ∈ ids, l < -(base.length : Int) ∨ (base.length : Int) ≤ l) :
    setLabels base ids = .error .IndexOutOfRange := by
  induction ids generalizing base with
  | nil => simp at h
  | cons l ls ih =>
    rw [setLabels]
    by_cases hbad : l < -(base.length : Int) ∨ (base.length : Int) ≤ l
    · rw [npSet_invalid base l hbad, exceptBind_err]
    · rw [npSet_valid base l (by omega) (by omega), exceptBind_ok]
      apply ih
      obtain ⟨x, hx, hxbad⟩ := h
      rcases List.mem_cons.mp hx with hxl | hxls
      · subst hxl; exact absurd hxbad hbad
      · exact ⟨x, hxls, by rwa [List.length_set]⟩

theorem normIdx_lt (size : Nat) (l : Int)
    (h1 : -(size : Int) ≤ l) (h2 : l < (size : Int)) : normIdx size l < size := by
  unfold normIdx
  by_cases h0 : 0 ≤ l
  · rw [if_pos h0]; omega
  · rw [if_neg h0]; omega

theorem replicate_getD (n j : Nat) :
    (List.replicate n (0 : Nat)).getD j 0 = 0 := by
  rw [List.getD_eq_getElem?_getD, List.getElem?_replicate]
  by_cases h : j < n <;> simp [h]

theorem indicatorRow_length (ids : List Int) (size : Nat) :
    (indicatorRow ids size).length = size := by
  simp [indicatorRow]

theorem indicatorRow_getD (ids : List Int) (size j : Nat) (hj : j < size) :
    (indicatorRow ids size).getD j 0 =
      if j ∈ ids.map (normIdx size) then 1 else 0 := by
  rw [← getElem_eq_getD (l := indicatorRow ids size)
    (by rw [indicatorRow_length]; exact hj)]
  simp [indicatorRow]

theorem to_multi_hot_row_valid (ids : List Int) (size : Nat)
    (h : ∀ l ∈ ids, -(size : Int) ≤ l ∧ l < (size : Int)) :
    to_multi_hot_row ids size = .ok (indicatorRow ids size) := by
  unfold to_multi_hot_row
  rw [setLabels_eq_setAll _ _ (by
    intro l hl
    rw [List.length_replicate]
    exact h l hl)]
  congr 1
  apply List.ext_getElem
  · rw [setAll_length, List.length_replicate, indicatorRow_length]
  · intro j h1 h2
    have hj : j < size := by rwa [indicatorRow_length] at h2
    rw [getElem_eq_getD h1, getElem_eq_getD h2,
      setAll_getD _ _ _ (by
        intro l hl
        rw [List.length_replicate]
        exact normIdx_lt size l (h l hl).1 (h l hl).2),
      List.length_replicate, replicate_getD, indicatorRow_getD _ _ _ hj]

theorem to_multi_hot_row_err (ids : List Int) (size : Nat)
    (h : ∃ l ∈ ids, l < -(size : Int) ∨ (size : Int) ≤ l) :
    to_multi_hot_row ids size = .error .IndexOutOfRange := by
  unfold to_multi_hot_row
  apply setLabels_err
  simpa [List.length_replicate] using h

theorem to_multi_hot_valid (xs : List Anno) (size : Nat)
    (h : ∀ a ∈ xs, ∀ l ∈ a.label_ids, -(size : Int) ≤ l ∧ l < (size : Int)) :
    to_multi_hot xs size =
      .ok (xs.map (fun a => indicatorRow a.label_ids size)) := by
  induction xs with
  | nil => rfl
  | cons a xs ih =>
    unfold to_multi_hot at ih ⊢
    rw [List.mapM_cons,
      to_multi_hot_row_valid a.label_ids size (h a (List.mem_cons_self a xs)),
      exceptBind_ok, ih (fun x hx => h x (List.mem_cons_of_mem a hx)),
      exceptBind_ok, List.map_cons]
    rfl

/-!
## Lemmas about `fbeta2` and `npMean`
-/

theorem tp_self (g : List Nat) :
    ((g.zip g).filter (fun x => x.1 == 1 && x.2 == 1)).length = g.count 1 := by
  induction g with
  | nil => rfl
  | cons a g ih =>
    simp only [List.zip_cons_cons, List.filter_cons]
    by_cases ha : a = 1 <;> simp [ha, ih, List.count_cons]

theorem fp_self (g : List Nat) :
    ((g.zip g).filter (fun x => x.1 != 1 && x.2 == 1)).length = 0 := by
  induction g with
  | nil => rfl
  | cons a g ih =>
    simp only [List.zip_cons_cons, List.filter_cons]
    by_cases ha : a = 1 <;> simp [ha, ih]

theorem fn_self (g : List Nat) :
    ((g.zip g).filter (fun x => x.1 == 1 && x.2 != 1)).length = 0 := by
  induction g with
  | nil => rfl
  | cons a g ih =>
    simp only [List.zip_cons_cons, List.filter_cons]
    by_cases ha : a = 1 <;> simp [ha, ih]

theorem fbeta2_self (g : List Nat) (h : 1 ∈ g) : fbeta2 g g = 1 := by
  have hc : 0 < g.count 1 := List.count_pos_iff.mpr h
  unfold fbeta2
  rw [tp_self, fp_self, fn_self, if_neg (by omega)]
  have he : 5 * g.count 1 + 4 * 0 + 0 = 5 * g.count 1 := by omega
  rw [he]
  push_cast
  exact div_self (by positivity)

theorem fbeta2_nonneg (g p : List Nat) : 0 ≤ fbeta2 g p := by
  unfold fbeta2
  dsimp only
  split
  · exact le_refl 0
  · positivity

theorem fbeta2_le_one (g p : List Nat) : fbeta2 g p ≤ 1 := by
  unfold fbeta2
  dsimp only
  split
  · exact zero_le_one
  · rename_i hne
    rw [div_le_one (by positivity)]
    push_cast
    have : (((g.zip p).filter (fun x => x.1 == 1 && x.2 == 1)).length : ℚ) ≥ 0 := by
      positivity
    nlinarith [Nat.cast_nonneg (α := ℚ)
        (((g.zip p).filter (fun x => x.1 != 1 && x.2 == 1)).length),
      Nat.cast_nonneg (α := ℚ)
        (((g.zip p).filter (fun x => x.1 == 1 && x.2 != 1)).length)]

theorem sum_eq_length_of_all_one (scores : List ℚ) (h : ∀ s ∈ scores, s = 1) :
    scores.sum = scores.length := by
  induction scores with
  | nil => rfl
  | cons a scores ih =>
    rw [List.sum_cons, h a (List.mem_cons_self a scores),
      ih (fun x hx => h x (List.mem_cons_of_mem a hx)), List.length_cons]
    push_cast
    ring

theorem npMean_all_one (scores : List ℚ) (hne : scores ≠ [])
    (h : ∀ s ∈ scores, s = 1) : npMean scores = some 1 := by
  unfold npMean
  rw [if_neg (by simpa using hne), sum_eq_length_of_all_one scores h]
  have hlen : (scores.length : ℚ) ≠ 0 := by
    simp only [ne_eq, Nat.cast_eq_zero, List.length_eq_zero]
    exact hne
  rw [div_self hlen]

theorem npMean_bounds (scores : List ℚ) (q : ℚ)
    (h : ∀ s ∈ scores, 0 ≤ s ∧ s ≤ 1) (hq : npMean scores = some q) :
    0 ≤ q ∧ q ≤ 1 := by
  unfold npMean at hq
  by_cases hz : scores.length = 0
  · rw [if_pos hz] at hq
    exact absurd hq (by simp)
  · rw [if_neg hz] at hq
    have hlen : (0 : ℚ) < (scores.length : ℚ) := by
      exact_mod_cast Nat.pos_of_ne_zero hz
    have hsum0 : 0 ≤ scores.sum := List.sum_nonneg (fun x hx => (h x hx).1)
    have hsum1 : scores.sum ≤ (scores.length : ℚ) := by
      have := List.sum_le_card_nsmul scores 1 (fun x hx => (h x hx).2)
      simpa using this
    have hqv : q = scores.sum / (scores.length : ℚ) := by
      exact (Option.some_inj.mp hq).symm
    subst hqv
    constructor
    · exact div_nonneg hsum0 (le_of_lt hlen)
    · rw [div_le_one hlen]
      exact hsum1

theorem zip_self (l : List α) : l.zip l = l.map (fun a => (a, a)) := by
  induction l with
  | nil => rfl
  | cons a l ih => rw [List.zip_cons_cons, ih, List.map_cons]

theorem one_mem_indicatorRow (ids : List Int) (size : Nat) (l : Int)
    (hl : l ∈ ids) (h1 : -(size : Int) ≤ l) (h2 : l < (size : Int)) :
    1 ∈ indicatorRow ids size := by
  unfold indicatorRow
  apply List.mem_map.mpr
  refine ⟨normIdx size l, List.mem_range.mpr (normIdx_lt size l h1 h2), ?_⟩
  rw [if_pos (List.mem_map.mpr ⟨l, hl, rfl⟩)]

/-!
## Claim theorems
-/

/-- C10: every fold pair returned by `kfold` has its nominal train
partition equal, element for element, to its test partition — both are
built from the splitter's test index set, so the train indices are
discarded and the caller never receives a genuine train/test split. -/
theorem kfold_train_eq_test (splits : List (List Nat × List Nat))
    (annotations : List Anno) (folds : List (List Anno × List Anno))
    (h : kfold splits annotations = .ok folds) :
    ∀ fold ∈ folds, fold.1 = fold.2 := by
  unfold kfold at h
  cases hm : to_multi_hot annotations 3474 with
  | error e =>
    rw [hm, exceptBind_err] at h
    exact absurd h (by simp)
  | ok v =>
    rw [hm, exceptBind_ok] at h
    injection h with h
    subst h
    intro fold hf
    obtain ⟨s, _, rfl⟩ := List.mem_map.mp hf
    rfl

theorem kfold_train_eq_test_witness :
    ([Anno.mk "b" [1]], [Anno.mk "b" [1]]).1 =
      ([Anno.mk "b" [1]], [Anno.mk "b" [1]]).2 :=
  kfold_train_eq_test [([0], [1])] [⟨"a", [0]⟩, ⟨"b", [1]⟩]
    [([Anno.mk "b" [1]], [Anno.mk "b" [1]])]
    (by
      unfold kfold
      rw [to_multi_hot_valid _ _ (by decide), exceptBind_ok]
      rfl)
    ([Anno.mk "b" [1]], [Anno.mk "b" [1]]) (by simp)

/-- C5: for a list of valid nonnegative ids and `size = L`, the encoder
succeeds and position `j` of the row holds 1 exactly when `j` is one of
the ids: the 1-positions decode back to the encoded set. -/
theorem multi_hot_round_trip (ids : List Int) (L : Nat)
    (h : ∀ l ∈ ids, 0 ≤ l ∧ l < (L : Int)) :
    ∃ row, to_multi_hot_row ids L = .ok row ∧ row.length = L ∧
      ∀ j < L, (row.getD j 0 = 1 ↔ (j : Int) ∈ ids) := by
  refine ⟨indicatorRow ids L,
    to_multi_hot_row_valid ids L (fun l hl => ⟨by linarith [(h l hl).1], (h l hl).2⟩),
    indicatorRow_length ids L, ?_⟩
  intro j hj
  rw [indicatorRow_getD ids L j hj]
  constructor
  · intro h1
    by_cases hmem : j ∈ ids.map (normIdx L)
    · obtain ⟨l, hl, hnl⟩ := List.mem_map.mp hmem
      have h0 := (h l hl).1
      have : l = (j : Int) := by
        unfold normIdx at hnl
        rw [if_pos h0] at hnl
        omega
      rwa [← this]
    · rw [if_neg hmem] at h1
      exact absurd h1 (by norm_num)
  · intro hmem
    rw [if_pos (List.mem_map.mpr ⟨(j : Int), hmem, by unfold normIdx; simp⟩)]

theorem multi_hot_round_trip_witness :
    (∀ l ∈ [(0 : Int), 2], 0 ≤ l ∧ l < (3 : Int)) ∧
    (∃ row, to_multi_hot_row [(0 : Int), 2] 3 = .ok row ∧ row.length = 3 ∧
      ∀ j < 3, (row.getD j 0 = 1 ↔ (j : Int) ∈ [(0 : Int), 2])) :=
  ⟨by decide, multi_hot_round_trip [(0 : Int), 2] 3 (by decide)⟩

/-- C4 counterexample: the id `-1` is negative, yet the encoder does not
fail: numpy negative indexing silently sets the LAST position, so
`to_multi_hot` on `{-1}` with `size = 3` returns `[0, 0, 1]`. -/
theorem multi_hot_negative_counterexample :
    to_multi_hot_row [(-1 : Int)] 3 = .ok [0, 0, 1] := by rfl

/-- C4 (amended): the encoder returns a length-`size` binary vector with
1s exactly at the positions the ids address (id `l < 0` addresses
`size + l`, numpy negative indexing), and fails with `IndexOutOfRange`
exactly when some id is `≥ size` or `< -size`. -/
theorem multi_hot_encode_spec (ids : List Int) (size : Nat) :
    ((∀ l ∈ ids, -(size : Int) ≤ l ∧ l < (size : Int)) →
      to_multi_hot_row ids size = .ok (indicatorRow ids size)) ∧
    ((∃ l ∈ ids, l < -(size : Int) ∨ (size : Int) ≤ l) →
      to_multi_hot_row ids size = .error .IndexOutOfRange) :=
  ⟨to_multi_hot_row_valid ids size, to_multi_hot_row_err ids size⟩

theorem multi_hot_encode_spec_witness :
    to_multi_hot_row [(-1 : Int), 2] 3 = .ok (indicatorRow [(-1 : Int), 2] 3) ∧
    to_multi_hot_row [(7 : Int)] 3 = .error .IndexOutOfRange :=
  ⟨(multi_hot_encode_spec [(-1 : Int), 2] 3).1 (by decide),
   (multi_hot_encode_spec [(7 : Int)] 3).2 ⟨7, by decide, by decide⟩⟩

/-- C2 counterexample: with `start_width = 4 > output_width = 2` and
`depth = 1` (a valid configuration by the claim's own side conditions),
the last block's `out_channels` is `4 + |2-4|*1//1 = 6`, not the
configured output width `2`: the `abs` in the source breaks decreasing
schedules. -/
theorem schedule_counterexample :
    SEResNeXt.block_out 4 2 1 0 = 6 ∧ (6 : Nat) ≠ 2 := by decide

/-- C2 (amended): for `start_width ≤ output_width` (the increasing case,
the one the source is written for), the schedule starts at
`start_width`, consecutive blocks agree (`out_channels[i]` equals
`in_channels[i+1]`), and the last block's `out_channels` is exactly
`output_width`; with `start_width > output_width` the `abs` makes the
last width overshoot instead. -/
theorem schedule_continuity (w o d : Nat) (hd : 0 < d) (hwo : w ≤ o) :
    SEResNeXt.block_in w o d 0 = w ∧
    (∀ i, SEResNeXt.block_out w o d i = SEResNeXt.block_in w o d (i + 1)) ∧
    SEResNeXt.block_out w o d (d - 1) = o := by
  have hdiff : SEResNeXt.diff w o = o - w := by
    unfold SEResNeXt.diff
    omega
  refine ⟨?_, fun i => rfl, ?_⟩
  · unfold SEResNeXt.block_in
    simp
  · unfold SEResNeXt.block_out
    rw [hdiff, Nat.sub_add_cancel hd, Nat.mul_div_cancel _ hd]
    omega

theorem schedule_continuity_witness :
    0 < 3 ∧ 1024 ≤ 3474 ∧
    (SEResNeXt.block_in 1024 3474 3 0 = 1024 ∧
     (∀ i, SEResNeXt.block_out 1024 3474 3 i = SEResNeXt.block_in 1024 3474 3 (i + 1)) ∧
     SEResNeXt.block_out 1024 3474 3 (3 - 1) = 3474) :=
  ⟨by decide, by decide, schedule_continuity 1024 3474 3 (by decide) (by decide)⟩

/-- C8 counterexample: `CSEModule` construction with `C = 24` channels
and `reduction = 16` succeeds (with mid width `24 // 16 = 1`) even
though 16 does not divide 24: the source performs no divisibility
check, so no `InvalidConfiguration` is raised. -/
theorem cse_counterexample :
    CSEModule.init 24 16 = .ok ⟨24, 1⟩ ∧ ¬ (16 ∣ 24) := ⟨by rfl, by decide⟩

/-- C8 (amended): for every channel count `C` and every `reduction ≥ 1`
(divisible or not), construction succeeds, the bottleneck width is the
floor `C // reduction`, and the forward pass multiplies the input
elementwise by the sigmoid gate `sigmoid(conv(relu(conv(gap(x)))))`
projecting `C → C // reduction → C`; only `reduction = 0` fails (a
`ZeroDivisionError`, not the divisibility `InvalidConfiguration` the
claim postulates). -/
theorem cse_construction_spec (C r : Nat) (hr : 0 < r) :
    CSEModule.init C r = .ok ⟨C, C / r⟩ ∧
    ∀ x, CSEModule.forwardExpr ⟨C, C / r⟩ x =
      TExpr.mul x (.sigmoid (.conv1x1 (C / r) C
        (.relu (.conv1x1 C (C / r) (.gap x))))) := by
  constructor
  · unfold CSEModule.init
    rw [if_neg (by omega)]
  · intro x
    rfl

theorem cse_construction_spec_witness :
    CSEModule.init 64 16 = .ok ⟨64, 64 / 16⟩ ∧
    ∀ x, CSEModule.forwardExpr ⟨64, 64 / 16⟩ x =
      TExpr.mul x (.sigmoid (.conv1x1 (64 / 16) 64
        (.relu (.conv1x1 64 (64 / 16) (.gap x))))) :=
  cse_construction_spec 64 16 (by decide)

/-- C7 counterexample: constructing the backbone with `depth = 0`
succeeds — the block comprehension is empty, so `SEResNeXt.__init__`
returns a model consisting of just the input convolution, with no
`InvalidConfiguration` ever raised. -/
theorem backbone_depth_zero_counterexample :
    SEResNeXt.init 3 3474 0 1024 =
      .ok ⟨⟨3, 1024, 1, 0, 1, 1, 1, false⟩, []⟩ := by rfl

/-- C7 (amended): `depth == 0` does NOT fail — construction succeeds
with an empty block stack (the `width // depth` division is never
evaluated).  The second half of the claim holds: with `depth ≥ 1` and
`start_width // depth == 0` every block's group count is zero and
construction fails (the `out_channels // 2 // groups` division raises
`ZeroDivisionError`) before any forward pass. -/
theorem backbone_construction (ic oc d w : Nat) :
    (d = 0 → SEResNeXt.init ic oc d w =
      .ok ⟨⟨ic, w, 1, 0, 1, 1, 1, false⟩, []⟩) ∧
    (0 < d → w / d = 0 →
      SEResNeXt.init ic oc d w = .error .ZeroDivision) := by
  constructor
  · intro hd
    subst hd
    unfold SEResNeXt.init ConvBR2d.init
    simp [Nat.mod_one, exceptBind_ok]
    rfl
  · intro hd hwd
    unfold SEResNeXt.init
    rw [show ConvBR2d.init ic w 1 0 1 1 1 false =
        .ok ⟨ic, w, 1, 0, 1, 1, 1, false⟩ from by
      unfold ConvBR2d.init
      simp [Nat.mod_one]]
    rw [exceptBind_ok]
    obtain ⟨e, rfl⟩ : ∃ e, d = e + 1 := ⟨d - 1, by omega⟩
    rw [List.range_succ_eq_map, List.mapM_cons]
    rw [show SENextBottleneck.init (SEResNeXt.block_in w oc (e + 1) 0)
        (SEResNeXt.block_out w oc (e + 1) 0) 1 (w / (e + 1)) 16 .max false
        = .error .ZeroDivision from by
      unfold SENextBottleneck.init
      rw [hwd]
      rfl]
    rw [exceptBind_err, exceptBind_err]

theorem backbone_construction_witness :
    SEResNeXt.init 3 1069 0 512 = .ok ⟨⟨3, 512, 1, 0, 1, 1, 1, false⟩, []⟩ ∧
    SEResNeXt.init 3 3474 3 2 = .error .ZeroDivision :=
  ⟨(backbone_construction 3 1069 0 512).1 rfl,
   (backbone_construction 3 3474 3 2).2 (by decide) (by decide)⟩

theorem optionGetD_map (f : α → β) (o : Option α) (d : α) :
    (o.map f).getD (f d) = f (o.getD d) := by
  cases o <;> rfl

theorem getD_map (f : α → β) (l : List α) (i : Nat) (d : α) :
    (l.map f).getD i (f d) = f (l.getD i d) := by
  rw [List.getD_eq_getElem?_getD, List.getD_eq_getElem?_getD, List.getElem?_map]
  exact optionGetD_map f _ d

theorem zip_fbeta_eq_range (as bs : List (List Nat)) (d : List Nat) :
    (as.zip bs).map (fun x => fbeta2 x.2 x.1) =
      (List.range (min as.length bs.length)).map
        (fun i => fbeta2 (bs.getD i d) (as.getD i d)) := by
  induction as generalizing bs with
  | nil => simp
  | cons a as ih =>
    cases bs with
    | nil => simp
    | cons b bs =>
      rw [List.zip_cons_cons, List.map_cons, ih bs]
      have hmin : min (a :: as).length (b :: bs).length =
          min as.length bs.length + 1 := by
        simp only [List.length_cons]
        omega
      rw [hmin, List.range_succ_eq_map, List.map_cons, List.map_map]
      rfl

set_option maxRecDepth 4096 in
/-- C6: `evaluate(X, X) = 1.0` for every non-empty `X` whose records all
carry at least one valid label id. -/
theorem evaluate_identity (X : List Anno) (hne : X ≠ [])
    (h : ∀ a ∈ X, a.label_ids ≠ [] ∧
      ∀ l ∈ a.label_ids, 0 ≤ l ∧ l < (3474 : Int)) :
    evaluate X X = .ok (some 1) := by
  have hv : ∀ a ∈ X, ∀ l ∈ a.label_ids, -(3474 : Int) ≤ l ∧ l < (3474 : Int) :=
    fun a ha l hl => ⟨by linarith [((h a ha).2 l hl).1], ((h a ha).2 l hl).2⟩
  unfold evaluate
  rw [to_multi_hot_valid X 3474 hv, exceptBind_ok, exceptBind_ok, zip_self,
    List.map_map, List.map_map]
  refine congrArg Except.ok ?_
  apply npMean_all_one
  · simp only [ne_eq, List.map_eq_nil_iff]
    exact hne
  · intro s hs
    obtain ⟨a, ha, rfl⟩ := List.mem_map.mp hs
    obtain ⟨l, hl⟩ := List.exists_mem_of_ne_nil _ (h a ha).1
    show fbeta2 (indicatorRow a.label_ids 3474) (indicatorRow a.label_ids 3474) = 1
    exact fbeta2_self _ (one_mem_indicatorRow a.label_ids 3474 l hl
      (by linarith [((h a ha).2 l hl).1]) ((h a ha).2 l hl).2)

theorem evaluate_identity_witness :
    ([Anno.mk "a" [0, 2]] ≠ []) ∧
    evaluate [⟨"a", [0, 2]⟩] [⟨"a", [0, 2]⟩] = .ok (some 1) :=
  ⟨by decide, evaluate_identity [⟨"a", [0, 2]⟩] (by decide) (by decide)⟩

/-- C3 counterexample: `evaluate` with a 1-record prediction list and a
2-record ground-truth list does NOT fail with any length error: Python's
`zip` silently truncates to the single common pair, and the call returns
that pair's score. -/
theorem evaluate_truncation_counterexample :
    evaluate [⟨"a", [0]⟩] [⟨"a", [0]⟩, ⟨"b", [1]⟩] = .ok (some 1) := by
  unfold evaluate
  rw [to_multi_hot_valid _ _ (by decide), exceptBind_ok,
    to_multi_hot_valid _ _ (by decide), exceptBind_ok]
  simp only [List.map_cons, List.map_nil, List.zip_cons_cons, List.zip_nil_left]
  rw [fbeta2_self _ (one_mem_indicatorRow (Anno.mk "a" [0]).label_ids 3474 0
    (by decide) (by decide) (by decide))]
  norm_num [npMean, pure, Except.pure]

/-- C3 (amended): `evaluate` never raises a length error: it pairs
`predicted[i]` with `ground_truth[i]` for `i` below the MINIMUM of the
two lengths (`zip` truncation), multi-hot encodes both, scores each
pair with F-beta (beta=2), and returns the arithmetic mean (NaN when no
pair is formed); on equal-length inputs this is exactly the claimed
index-wise pairing. -/
theorem evaluate_spec (pred gt : List Anno)
    (hp : ∀ a ∈ pred, ∀ l ∈ a.label_ids, -(3474 : Int) ≤ l ∧ l < (3474 : Int))
    (hg : ∀ a ∈ gt, ∀ l ∈ a.label_ids, -(3474 : Int) ≤ l ∧ l < (3474 : Int)) :
    evaluate pred gt =
      .ok (npMean ((List.range (min pred.length gt.length)).map
        (fun i => fbeta2
          (indicatorRow ((gt.getD i ⟨"", []⟩).label_ids) 3474)
          (indicatorRow ((pred.getD i ⟨"", []⟩).label_ids) 3474)))) := by
  unfold evaluate
  rw [to_multi_hot_valid pred 3474 hp, exceptBind_ok,
    to_multi_hot_valid gt 3474 hg, exceptBind_ok,
    zip_fbeta_eq_range _ _ (indicatorRow (Anno.mk "" []).label_ids 3474)]
  refine congrArg Except.ok (congrArg npMean ?_)
  simp only [List.length_map]
  apply List.map_congr_left
  intro i _
  rw [getD_map (fun a => indicatorRow a.label_ids 3474) gt i ⟨"", []⟩,
    getD_map (fun a => indicatorRow a.label_ids 3474) pred i ⟨"", []⟩]

theorem evaluate_spec_witness :
    evaluate [⟨"a", [0]⟩] [⟨"a", [0]⟩, ⟨"b", [1]⟩, ⟨"c", [2]⟩] =
      .ok (npMean ((List.range (min 1 3)).map
        (fun i => fbeta2
          (indicatorRow (([⟨"a", [0]⟩, ⟨"b", [1]⟩, ⟨"c", [2]⟩] :
            List Anno).getD i ⟨"", []⟩).label_ids 3474)
          (indicatorRow (([⟨"a", [0]⟩] : List Anno).getD i ⟨"", []⟩).label_ids
            3474)))) := by
  exact evaluate_spec [⟨"a", [0]⟩] [⟨"a", [0]⟩, ⟨"b", [1]⟩, ⟨"c", [2]⟩]
    (by decide) (by decide)

/-- C9 counterexample: on the empty pair of sequences `evaluate` does
not return a score in `[0, 1]`: the numpy mean of an empty array is NaN
(modelled as `none`). -/
theorem evaluate_empty_counterexample : evaluate [] [] = .ok none := by rfl

/-- C9 (amended): whenever `evaluate` returns an actual number (it
returns NaN on the empty pairing), that number lies in `[0, 1]`. -/
theorem evaluate_bounds (pred gt : List Anno) (q : ℚ)
    (h : evaluate pred gt = .ok (some q)) : 0 ≤ q ∧ q ≤ 1 := by
  unfold evaluate at h
  cases h1 : to_multi_hot pred 3474 with
  | error e =>
    rw [h1, exceptBind_err] at h
    exact absurd h (by simp)
  | ok hp =>
    rw [h1, exceptBind_ok] at h
    cases h2 : to_multi_hot gt 3474 with
    | error e =>
      rw [h2, exceptBind_err] at h
      exact absurd h (by simp)
    | ok hg =>
      rw [h2, exceptBind_ok] at h
      have hm : npMean ((hp.zip hg).map (fun x => fbeta2 x.2 x.1)) = some q :=
        Except.ok.inj h
      refine npMean_bounds _ q ?_ hm
      intro s hs
      obtain ⟨x, _, rfl⟩ := List.mem_map.mp hs
      exact ⟨fbeta2_nonneg _ _, fbeta2_le_one _ _⟩

theorem eval_single_self : evaluate [⟨"b", [2]⟩] [⟨"b", [2]⟩] = .ok (some 1) := by
  unfold evaluate
  rw [to_multi_hot_valid _ _ (by decide), exceptBind_ok, exceptBind_ok]
  simp only [List.map_cons, List.map_nil, List.zip_cons_cons, List.zip_nil_left]
  rw [fbeta2_self _ (one_mem_indicatorRow (Anno.mk "b" [2]).label_ids 3474 2
    (by decide) (by decide) (by decide))]
  norm_num [npMean, pure, Except.pure]

theorem evaluate_bounds_witness :
    evaluate [⟨"b", [2]⟩] [⟨"b", [2]⟩] = .ok (some 1) ∧
    (0 ≤ (1 : ℚ) ∧ (1 : ℚ) ≤ 1) :=
  ⟨eval_single_self, evaluate_bounds [⟨"b", [2]⟩] [⟨"b", [2]⟩] 1 eval_single_self⟩

theorem bcastDim_self (a : Nat) : bcastDim a a = .ok a := by
  unfold bcastDim
  rw [if_pos rfl]

theorem bcastDim_one_right (a : Nat) : bcastDim a 1 = .ok a := by
  unfold bcastDim
  by_cases h : a = 1
  · rw [if_pos h, h]
  · rw [if_neg h, if_neg h, if_pos rfl]

theorem bcastDim_err (a b : Nat) (hab : a ≠ b) (ha : a ≠ 1) (hb : b ≠ 1) :
    bcastDim a b = .error .ShapeMismatch := by
  unfold bcastDim
  rw [if_neg hab, if_neg ha, if_neg hb]

theorem conv1x1_outShape (cin cout c h w : Nat) (act : Bool) (hc : c = cin)
    (hh : 0 < h) (hw : 0 < w) :
    ConvBR2d.outShape ⟨cin, cout, 1, 0, 1, 1, 1, act⟩ ⟨c, h, w⟩ =
      .ok ⟨cout, h, w⟩ := by
  subst hc
  unfold ConvBR2d.outShape
  rw [if_neg (by simp)]
  dsimp only
  rw [if_neg (by omega)]
  refine congrArg Except.ok ?_
  congr 1 <;> omega

theorem conv3x3_outShape (cin cout g c h w : Nat) (act : Bool) (hc : c = cin)
    (hh : 0 < h) (hw : 0 < w) :
    ConvBR2d.outShape ⟨cin, cout, 3, 1, 1, 1, g, act⟩ ⟨c, h, w⟩ =
      .ok ⟨cout, h, w⟩ := by
  subst hc
  unfold ConvBR2d.outShape
  rw [if_neg (by simp)]
  dsimp only
  rw [if_neg (by omega)]
  refine congrArg Except.ok ?_
  congr 1 <;> omega

theorem cse_outShape (C m c h w : Nat) (hc : c = C) :
    CSEModule.outShape ⟨C, m⟩ ⟨c, h, w⟩ = .ok ⟨C, h, w⟩ := by
  subst hc
  unfold CSEModule.outShape bcast
  rw [if_neg (by simp)]
  dsimp only
  rw [bcastDim_self, exceptBind_ok, bcastDim_one_right, exceptBind_ok,
    bcastDim_one_right, exceptBind_ok]
  rfl

theorem senext_init_default (ic oc : Nat) :
    SENextBottleneck.init ic oc 1 32 16 .max false =
      .ok ⟨⟨ic, 32 * (oc / 2 / 32), 1, 0, 1, 1, 1, true⟩,
           ⟨32 * (oc / 2 / 32), 32 * (oc / 2 / 32), 3, 1, 1, 1, 32, true⟩,
           ⟨32 * (oc / 2 / 32), oc, 1, 0, 1, 1, 1, false⟩,
           ⟨oc, oc / 16⟩, 1, false, none, none⟩ := by
  unfold SENextBottleneck.init ConvBR2d.init CSEModule.init
  simp [Nat.mod_one, Nat.mul_mod_right, exceptBind_ok]

/-- C1 (amended): the forward pass is exactly
`relu(shortcut_branch + attend(expand(pool_if_stride(transform(compress(x))))))`
with the pooling between `transform` and `expand` only when `stride > 1`,
and the shortcut branch the raw input (no shortcut) or the projection of
the (average-pooled when `stride > 1`) input (with shortcut).  For the
shortcut-free residual add, the torch `+` BROADCASTS: with `stride = 1`
it succeeds when `in_channels = out_channels` (shape preserved), and is
a fatal `ShapeMismatch` when the channel counts differ AND neither
equals 1; a channel count of 1 on either side broadcasts instead of
failing, which is the one case the original claim gets wrong. -/
theorem senext_bottleneck_forward (ic oc h w : Nat) (b : SENextBottleneck) :
    (b.is_shortcut = false →
      SENextBottleneck.forwardExpr b = specBottleneckExpr b TExpr.input) ∧
    (∀ sc, b.is_shortcut = true → b.shortcut = some sc →
      SENextBottleneck.forwardExpr b = specBottleneckExpr b
        (TExpr.convBR sc (if b.stride > 1 then TExpr.avgPool2d b.stride TExpr.input
          else TExpr.input))) ∧
    (SENextBottleneck.init ic oc 1 32 16 .max false = .ok b → 0 < h → 0 < w →
      ((ic = oc → SENextBottleneck.forwardShape b ⟨ic, h, w⟩ = .ok ⟨oc, h, w⟩) ∧
       (ic ≠ oc → ic ≠ 1 → oc ≠ 1 →
         SENextBottleneck.forwardShape b ⟨ic, h, w⟩ = .error .ShapeMismatch))) := by
  refine ⟨?_, ?_, ?_⟩
  · intro hsc
    unfold SENextBottleneck.forwardExpr specBottleneckExpr
    rw [hsc]
    rfl
  · intro sc htrue hsome
    unfold SENextBottleneck.forwardExpr specBottleneckExpr
    rw [htrue, hsome]
    rfl
  · intro hinit hh hw
    rw [senext_init_default] at hinit
    have hb := Except.ok.inj hinit
    subst hb
    unfold SENextBottleneck.forwardShape
    dsimp only
    rw [conv1x1_outShape ic (32 * (oc / 2 / 32)) ic h w true rfl hh hw,
      exceptBind_ok,
      conv3x3_outShape (32 * (oc / 2 / 32)) (32 * (oc / 2 / 32)) 32
        (32 * (oc / 2 / 32)) h w true rfl hh hw,
      exceptBind_ok]
    rw [if_neg (show ¬((1 : Nat) > 1) by omega)]
    simp only [pure_bind]
    rw [conv1x1_outShape (32 * (oc / 2 / 32)) oc (32 * (oc / 2 / 32)) h w false
        rfl hh hw, exceptBind_ok,
      cse_outShape oc (oc / 16) oc h w rfl, exceptBind_ok]
    rw [if_neg (show ¬(false = true) by simp)]
    constructor
    · intro heq
      subst heq
      unfold bcast
      dsimp only
      rw [bcastDim_self, exceptBind_ok, bcastDim_self, exceptBind_ok,
        bcastDim_self, exceptBind_ok]
      rfl
    · intro hne h1 h2
      unfold bcast
      dsimp only
      rw [bcastDim_err ic oc hne h1 h2, exceptBind_err]

/-- C1 counterexample: a shortcut-free block with `stride = 1`,
`in_channels = 1` and `out_channels = 64` runs its forward pass
successfully — torch broadcasts the 1-channel input against the
64-channel main branch — so the residual add does NOT require
`in_channels == out_channels` and is not a `ShapeMismatch` here. -/
theorem bottleneck_broadcast_counterexample :
    (SENextBottleneck.init 1 64 1 32 16 .max false >>=
      fun b => SENextBottleneck.forwardShape b ⟨1, 4, 4⟩) = .ok ⟨64, 4, 4⟩ := by
  rfl

theorem senext_bottleneck_forward_witness :
    (SENextBottleneck.init 64 64 1 32 16 .max false =
      .ok ⟨⟨64, 32, 1, 0, 1, 1, 1, true⟩, ⟨32, 32, 3, 1, 1, 1, 32, true⟩,
           ⟨32, 64, 1, 0, 1, 1, 1, false⟩, ⟨64, 4⟩, 1, false, none, none⟩) ∧
    SENextBottleneck.forwardShape
      ⟨⟨64, 32, 1, 0, 1, 1, 1, true⟩, ⟨32, 32, 3, 1, 1, 1, 32, true⟩,
       ⟨32, 64, 1, 0, 1, 1, 1, false⟩, ⟨64, 4⟩, 1, false, none, none⟩ ⟨64, 4, 4⟩ =
      .ok ⟨64, 4, 4⟩ ∧
    SENextBottleneck.forwardExpr
      ⟨⟨64, 32, 1, 0, 1, 1, 1, true⟩, ⟨32, 32, 3, 1, 1, 1, 32, true⟩,
       ⟨32, 64, 1, 0, 1, 1, 1, false⟩, ⟨64, 4⟩, 1, false, none, none⟩ =
      specBottleneckExpr
        ⟨⟨64, 32, 1, 0, 1, 1, 1, true⟩, ⟨32, 32, 3, 1, 1, 1, 32, true⟩,
         ⟨32, 64, 1, 0, 1, 1, 1, false⟩, ⟨64, 4⟩, 1, false, none, none⟩
        TExpr.input :=
  ⟨by rfl,
   ((senext_bottleneck_forward 64 64 4 4
      ⟨⟨64, 32, 1, 0, 1, 1, 1, true⟩, ⟨32, 32, 3, 1, 1, 1, 32, true⟩,
       ⟨32, 64, 1, 0, 1, 1, 1, false⟩, ⟨64, 4⟩, 1, false, none, none⟩).2.2
      (by rfl) (by decide) (by decide)).1 rfl,
   (senext_bottleneck_forward 64 64 4 4
      ⟨⟨64, 32, 1, 0, 1, 1, 1, true⟩, ⟨32, 32, 3, 1, 1, 1, 32, true⟩,
       ⟨32, 64, 1, 0, 1, 1, 1, false⟩, ⟨64, 4⟩, 1, false, none, none⟩).1 rfl⟩
